import Mathlib

set_option maxRecDepth 8000

/-!
Verification of the paper-reference-agent resolution pipeline.

This file gives a shallow embedding, in Lean 4, of the pure core of the
`paper_agent` Python package: the page-range normalizer
(`paper_agent/utils.py: normalize_pages`), the title-similarity scorer
(`paper_agent/utils.py: similarity_score`), the per-source candidate
selection of the Semantic Scholar and DBLP clients
(`paper_agent/searcher.py`), the TTL cache (`paper_agent/cache.py`,
including the MD5 key derivation), and the page-supplement cascade of the
orchestrator (`paper_agent/searcher.py: PaperAgent`).

Python floats are modelled as rationals (ℚ); Python strings as Lean
`String`; dictionaries and the on-disk cache as association lists;
network-dependent extractor calls as explicit oracle functions that are
parameters of the embedded definitions.  Machine behaviour that the
claims do not depend on (Unicode case folding beyond ASCII, exotic
whitespace classes) is modelled by the corresponding ASCII-faithful Lean
primitives.
-/

namespace PaperAgent

/-! ## Python string primitives -/

/-- `str.lower()` (ASCII case folding, as used on the ASCII inputs of the
repository's queries and titles). -/
def pyLower (s : String) : String := ⟨s.data.map Char.toLower⟩

/-- `str.strip()`: remove leading and trailing whitespace. -/
def pyStrip (s : String) : String :=
  ⟨((s.data.dropWhile Char.isWhitespace).reverse.dropWhile Char.isWhitespace).reverse⟩

/-- Helper for `str.split()`: split on whitespace runs, dropping empties.
`acc` is the (reversed) current word. -/
def splitWsAux : List Char → List Char → List String
  | [], acc => if acc.isEmpty then [] else [⟨acc.reverse⟩]
  | c :: cs, acc =>
    if c.isWhitespace then
      if acc.isEmpty then splitWsAux cs [] else (⟨acc.reverse⟩ : String) :: splitWsAux cs []
    else splitWsAux cs (c :: acc)

/-- `str.split()` with no argument: maximal non-whitespace runs, in order. -/
def pyWords (s : String) : List String := splitWsAux s.data []

/-- Helper for Python's substring test: is `n` an infix of the second list? -/
def infixAux : List Char → List Char → Bool
  | n, [] => n.isEmpty
  | n, c :: t => n.isPrefixOf (c :: t) || infixAux n t

/-- Python's `needle in hay` on strings (empty needle is contained in
every string). -/
def strContains (needle hay : String) : Bool := infixAux needle.data hay.data

/-! ## normalize_pages (`paper_agent/utils.py`, lines 17–42) -/

/-- Helper for `re.findall(r'\d+', s)`: collect maximal digit runs; `acc`
is the (reversed) current run. -/
def digitRunsAux : List Char → List Char → List String
  | [], acc => if acc.isEmpty then [] else [⟨acc.reverse⟩]
  | c :: cs, acc =>
    if c.isDigit then digitRunsAux cs (c :: acc)
    else if acc.isEmpty then digitRunsAux cs []
    else (⟨acc.reverse⟩ : String) :: digitRunsAux cs []

/-- All maximal digit runs of a string, in order (`re.findall(r'\d+', s)`). -/
def digitRuns (s : String) : List String := digitRunsAux s.data []

/-- Remainder of the string after the leading label matched by the Python
regex `^(pages?|pp?\.?)` with `re.IGNORECASE`; the alternatives are tried
in the regex's greedy order. -/
def labelRemainder (s : List Char) : Option (List Char) :=
  if (s.take 5).map Char.toLower = "pages".data then some (s.drop 5)
  else if (s.take 4).map Char.toLower = "page".data then some (s.drop 4)
  else if (s.take 3).map Char.toLower = "pp.".data then some (s.drop 3)
  else if (s.take 2).map Char.toLower = "pp".data then some (s.drop 2)
  else if (s.take 2).map Char.toLower = "p.".data then some (s.drop 2)
  else if (s.take 1).map Char.toLower = "p".data then some (s.drop 1)
  else none

/-- `re.sub(r'^(pages?|pp?\.?)\s*', '', s, flags=re.IGNORECASE)`: strip the
leading pages label, if any, together with the following whitespace. -/
def stripPagesLabel (s : String) : String :=
  match labelRemainder s.data with
  | some rest => ⟨rest.dropWhile Char.isWhitespace⟩
  | none => s

/-- `normalize_pages` from `paper_agent/utils.py`: empty input yields
`None`; otherwise strip a leading pages label, extract the maximal digit
runs, and render `first-second`, the single run, or `None`. -/
def normalize_pages (pages : String) : Option String :=
  if pages = "" then none
  else
    match digitRuns (stripPagesLabel pages) with
    | a :: b :: _ => some (a ++ "-" ++ b)
    | [a] => some a
    | [] => none

/-! ## similarity_score (`paper_agent/utils.py`, lines 583–679)

Scores are Python floats in the source; they are modelled as rationals. -/

/-- `all(indices[i] < indices[i+1] for i in range(len(indices)-1))`:
adjacent-pairs strictly increasing. -/
def chainLt : List Nat → Bool
  | [] => true
  | [_] => true
  | a :: b :: t => decide (a < b) && chainLt (b :: t)

/-- The order-matching sub-score of `similarity_score` (its "方法4"
block): 0.3 when the query's shared words occur in the same relative
order in the title, 0.1 when they do not, and 0 when fewer than two
shared word occurrences exist.  `words1`/`words2` are the split word
lists of the normalized query and title. -/
def orderScore (words1 words2 : List String) : ℚ :=
  let set1 := words1.toFinset
  let set2 := words2.toFinset
  if 0 < (set1 ∩ set2).card then
    let words1list := words1.filter (fun w => decide (w ∈ set2))
    let words2list := words2.filter (fun w => decide (w ∈ set1))
    if 1 < words1list.length then
      let indices1 := (words1list.filter (fun w => decide (w ∈ words2list))).map
        (fun w => words2list.indexOf w)
      if 1 < indices1.length then
        if chainLt indices1 then 3/10 else 1/10
      else 0
    else 0
  else 0

/-- The containment tier table of `similarity_score`: score when the
normalized query is a literal substring of the normalized title, from
the word-count delta and the character-length ratio. -/
def containsTier (wordDiff : ℤ) (lenRatio : ℚ) : ℚ :=
  if wordDiff = 0 then 98/100
  else if wordDiff ≤ 1 ∧ 8/10 < lenRatio then 95/100
  else if wordDiff ≤ 2 ∧ 7/10 < lenRatio then 85/100
  else if wordDiff ≤ 3 then 75/100
  else 6/10

/-- `similarity_score` from `paper_agent/utils.py`: exact match, then
containment tiers, then the weighted word-set combination. -/
def similarity_score (str1O str2O : String) : ℚ :=
  let str1 := pyStrip (pyLower str1O)
  let str2 := pyStrip (pyLower str2O)
  if str1 = str2 then 1
  else if strContains str1 str2 then
    let lenRatio : ℚ := if 0 < str2.length then (str1.length : ℚ) / str2.length else 0
    let wordDiff : ℤ := ((pyWords str2).length : ℤ) - (pyWords str1).length
    containsTier wordDiff lenRatio
  else
    let words1 := pyWords str1
    let words2 := pyWords str2
    if words1 = [] ∨ words2 = [] then 0
    else
      let set1 := words1.toFinset
      let set2 := words2.toFinset
      let inter := (set1 ∩ set2).card
      let union := (set1 ∪ set2).card
      let jaccardScore : ℚ := if 0 < union then (inter : ℚ) / union else 0
      let coverageScore : ℚ := if 0 < set1.card then (inter : ℚ) / set1.card else 0
      let lenDiff := (((words1.length : ℤ) - words2.length).natAbs : ℚ)
      let maxLen := max words1.length words2.length
      let lengthScore : ℚ := if 0 < maxLen then 1 - lenDiff / maxLen else 0
      let finalScore :=
        coverageScore * (5/10) + jaccardScore * (3/10) +
        lengthScore * (15/100) + orderScore words1 words2 * (5/100)
      if 1 ≤ coverageScore then min 1 (finalScore * (11/10)) else finalScore

/-! Spec-side components for the word-set branch, written from the
specification's §4.2 step 3 wording, each over the raw input strings. -/

/-- Spec §4.2: `coverage = |Q∩T|/|Q|` over the word-sets of the
case-folded, trimmed query and title. -/
def coverageQ (q t : String) : ℚ :=
  let set1 := (pyWords (pyStrip (pyLower q))).toFinset
  let set2 := (pyWords (pyStrip (pyLower t))).toFinset
  if 0 < set1.card then ((set1 ∩ set2).card : ℚ) / set1.card else 0

/-- Spec §4.2: `Jaccard = |Q∩T|/|Q∪T|`. -/
def jaccardQ (q t : String) : ℚ :=
  let set1 := (pyWords (pyStrip (pyLower q))).toFinset
  let set2 := (pyWords (pyStrip (pyLower t))).toFinset
  if 0 < (set1 ∪ set2).card then ((set1 ∩ set2).card : ℚ) / (set1 ∪ set2).card else 0

/-- Spec §4.2: `length-similarity = 1 − |len(Q)−len(T)|/max(len(Q),len(T))`
over word counts. -/
def lengthSimQ (q t : String) : ℚ :=
  let words1 := pyWords (pyStrip (pyLower q))
  let words2 := pyWords (pyStrip (pyLower t))
  if 0 < max words1.length words2.length then
    1 - ((((words1.length : ℤ) - words2.length).natAbs : ℚ) / max words1.length words2.length)
  else 0

/-- The order-bonus exactly as the claim words it: 0.3 when the shared
words appear in the same relative order in both strings (vacuously so
for a single shared word), 0.1 when shared words exist but are not in
the same order, 0 when there are no shared words. -/
def claimOrderBonus (q t : String) : ℚ :=
  let words1 := pyWords (pyStrip (pyLower q))
  let words2 := pyWords (pyStrip (pyLower t))
  let set1 := words1.toFinset
  let set2 := words2.toFinset
  let words1list := words1.filter (fun w => decide (w ∈ set2))
  let words2list := words2.filter (fun w => decide (w ∈ set1))
  if words1list = [] then 0
  else if chainLt ((words1list.filter (fun w => decide (w ∈ words2list))).map
      (fun w => words2list.indexOf w)) then 3/10
  else 1/10

/-- The word-set-branch formula exactly as the claim words it, with the
order-bonus of `claimOrderBonus` and the coverage bonus capped at 1. -/
def claimWordSetFormula (q t : String) : ℚ :=
  let base :=
    coverageQ q t * (5/10) + jaccardQ q t * (3/10) +
    lengthSimQ q t * (15/100) + claimOrderBonus q t * (5/100)
  if 1 ≤ coverageQ q t then min 1 (base * (11/10)) else base

/-- The word-set-branch formula with the order-bonus amended to the
code's guard: the bonus applies only when the query contributes at least
two shared word occurrences. -/
def amendedWordSetFormula (q t : String) : ℚ :=
  let words1 := pyWords (pyStrip (pyLower q))
  let words2 := pyWords (pyStrip (pyLower t))
  let base :=
    coverageQ q t * (5/10) + jaccardQ q t * (3/10) +
    lengthSimQ q t * (15/100) + orderScore words1 words2 * (5/100)
  if 1 ≤ coverageQ q t then min 1 (base * (11/10)) else base

/-! ## MD5 and the cache key (`paper_agent/cache.py`, lines 48–51)

`CacheManager._get_cache_key` returns `hashlib.md5(query.lower()
.encode('utf-8')).hexdigest()`.  The MD5 algorithm (RFC 1321) is embedded
here over `Nat` with explicit reduction modulo `2^32`. -/

/-- The MD5 per-round left-rotation amounts. -/
def mdS (i : Nat) : Nat :=
  [7, 12, 17, 22, 7, 12, 17, 22, 7, 12, 17, 22, 7, 12, 17, 22,
   5, 9, 14, 20, 5, 9, 14, 20, 5, 9, 14, 20, 5, 9, 14, 20,
   4, 11, 16, 23, 4, 11, 16, 23, 4, 11, 16, 23, 4, 11, 16, 23,
   6, 10, 15, 21, 6, 10, 15, 21, 6, 10, 15, 21, 6, 10, 15, 21].getD i 0

/-- The MD5 sine-derived additive constants. -/
def mdK (i : Nat) : Nat :=
  [3614090360, 3905402710, 606105819, 3250441966, 4118548399, 1200080426, 2821735955, 4249261313,
   1770035416, 2336552879, 4294925233, 2304563134, 1804603682, 4254626195, 2792965006, 1236535329,
   4129170786, 3225465664, 643717713, 3921069994, 3593408605, 38016083, 3634488961, 3889429448,
   568446438, 3275163606, 4107603335, 1163531501, 2850285829, 4243563512, 1735328473, 2368359562,
   4294588738, 2272392833, 1839030562, 4259657740, 2763975236, 1272893353, 4139469664, 3200236656,
   681279174, 3936430074, 3572445317, 76029189, 3654602809, 3873151461, 530742520, 3299628645,
   4096336452, 1126891415, 2878612391, 4237533241, 1700485571, 2399980690, 4293915773, 2240044497,
   1873313359, 4264355552, 2734768916, 1309151649, 4149444226, 3174756917, 718787259, 3951481745].getD i 0

/-- 32-bit bitwise complement. -/
def bnot32 (x : Nat) : Nat := Nat.xor x (2 ^ 32 - 1)

/-- 32-bit left rotation. -/
def rotl32 (x n : Nat) : Nat := Nat.lor ((x <<< n) % 2 ^ 32) (x >>> (32 - n))

/-- Little-endian byte rendering of a number, `n` bytes wide. -/
def leBytes : Nat → Nat → List Nat
  | 0, _ => []
  | n + 1, v => (v % 256) :: leBytes n (v / 256)

/-- Group a byte list into little-endian 32-bit words. -/
def md5Words : List Nat → List Nat
  | b0 :: b1 :: b2 :: b3 :: rest =>
    (b0 + 256 * (b1 + 256 * (b2 + 256 * b3))) :: md5Words rest
  | _ => []

/-- One of the 64 MD5 rounds applied to the state `(a, b, c, d)`. -/
def md5Round (M : List Nat) (st : Nat × Nat × Nat × Nat) (i : Nat) :
    Nat × Nat × Nat × Nat :=
  let a := st.1
  let b := st.2.1
  let c := st.2.2.1
  let d := st.2.2.2
  let f :=
    if i < 16 then Nat.lor (Nat.land b c) (Nat.land (bnot32 b) d)
    else if i < 32 then Nat.lor (Nat.land d b) (Nat.land (bnot32 d) c)
    else if i < 48 then Nat.xor (Nat.xor b c) d
    else Nat.xor c (Nat.lor b (bnot32 d))
  let g :=
    if i < 16 then i
    else if i < 32 then (5 * i + 1) % 16
    else if i < 48 then (3 * i + 5) % 16
    else (7 * i) % 16
  let tmp := (f + a + mdK i + M.getD g 0) % 2 ^ 32
  (d, (b + rotl32 tmp (mdS i)) % 2 ^ 32, b, c)

/-- Process one 64-byte MD5 block, updating the running state. -/
def md5Block (st : Nat × Nat × Nat × Nat) (block : List Nat) :
    Nat × Nat × Nat × Nat :=
  let M := md5Words block
  let r := (List.range 64).foldl (md5Round M) st
  ((st.1 + r.1) % 2 ^ 32, (st.2.1 + r.2.1) % 2 ^ 32,
   (st.2.2.1 + r.2.2.1) % 2 ^ 32, (st.2.2.2 + r.2.2.2) % 2 ^ 32)

/-- MD5 padding: a `0x80` byte, zeros to 56 mod 64, then the bit length
as eight little-endian bytes. -/
def md5Pad (msg : List Nat) : List Nat :=
  let z := (119 - msg.length % 64) % 64
  msg ++ 128 :: List.replicate z 0 ++ leBytes 8 ((8 * msg.length) % 2 ^ 64)

/-- Fuelled 64-byte chunking (the fuel, instantiated with the list
length, keeps the recursion structural). -/
def chunksAux : Nat → List Nat → List (List Nat)
  | 0, _ => []
  | _ + 1, [] => []
  | n + 1, l => l.take 64 :: chunksAux n (l.drop 64)

/-- Split a byte list into 64-byte blocks. -/
def md5Chunks (l : List Nat) : List (List Nat) := chunksAux l.length l

/-- The MD5 digest of a byte list, as 16 bytes. -/
def md5Digest (msg : List Nat) : List Nat :=
  let st := (md5Chunks (md5Pad msg)).foldl md5Block
    (1732584193, 4023233417, 2562383102, 271733878)
  leBytes 4 st.1 ++ leBytes 4 st.2.1 ++ leBytes 4 st.2.2.1 ++ leBytes 4 st.2.2.2

/-- A lowercase hexadecimal digit. -/
def hexDigit (n : Nat) : Char :=
  if n < 10 then Char.ofNat (48 + n) else Char.ofNat (87 + n)

/-- `hexdigest()`: the digest bytes as a lowercase hex string. -/
def md5Hex (msg : List Nat) : String :=
  ⟨(md5Digest msg).flatMap (fun b => [hexDigit (b / 16), hexDigit (b % 16)])⟩

/-- UTF-8 encoding of one code point. -/
def utf8Enc (n : Nat) : List Nat :=
  if n < 128 then [n]
  else if n < 2048 then [192 + n / 64, 128 + n % 64]
  else if n < 65536 then [224 + n / 4096, 128 + n / 64 % 64, 128 + n % 64]
  else [240 + n / 262144, 128 + n / 4096 % 64, 128 + n / 64 % 64, 128 + n % 64]

/-- UTF-8 bytes of a string (`str.encode('utf-8')`). -/
def strBytes (s : String) : List Nat := s.data.flatMap (fun c => utf8Enc c.toNat)

/-- `CacheManager._get_cache_key`: the MD5 hex digest of the lower-cased
query's UTF-8 bytes.  Note the source lower-cases but does not strip. -/
def cacheKey (query : String) : String := md5Hex (strBytes (pyLower query))

/-! ## The TTL cache (`paper_agent/cache.py`)

The on-disk store is modelled as association lists keyed by the cache
key: one list for the per-key payload files of the cache directory, one
for the in-memory `self.metadata` dictionary.  A payload file is either
readable (`ok`, holding the decoded record of type `α`) or unreadable
(`corrupt`, standing for any `json.load` failure).  Timestamps are
rationals measured in days, so `config.CACHE_EXPIRY_DAYS = 30` is the
TTL; `datetime.now()` becomes an explicit `now` argument. -/

/-- A payload file on disk: readable with decoded content, or unreadable. -/
inductive CacheFile (α : Type) : Type
  | ok (payload : α)
  | corrupt
deriving DecidableEq

/-- One `self.metadata` entry: the original query and the parsed
`cached_at` timestamp (`none` models a missing or unparsable value). -/
structure MetaEntry where
  query : String
  cachedAt : Option ℚ
deriving DecidableEq

/-- The `metadata.json` file as found on disk at construction time. -/
inductive MetaFile : Type
  | absent
  | corrupt
  | ok (entries : List (String × MetaEntry))
deriving DecidableEq

/-- `CacheManager._load_metadata`: a missing or unreadable metadata file
yields the empty dictionary. -/
def loadMetadata : MetaFile → List (String × MetaEntry)
  | .absent => []
  | .corrupt => []
  | .ok entries => entries

/-- The cache manager's state: payload files plus the metadata dict. -/
structure CacheState (α : Type) : Type where
  files : List (String × CacheFile α)
  metadata : List (String × MetaEntry)
deriving DecidableEq

/-- Remove a key from an association list. -/
def alErase {β : Type} (k : String) (l : List (String × β)) : List (String × β) :=
  l.filter (fun p => p.1 != k)

/-- Overwrite a key in an association list. -/
def alSet {β : Type} (k : String) (v : β) (l : List (String × β)) :
    List (String × β) :=
  (k, v) :: alErase k l

/-- `config.CACHE_EXPIRY_DAYS`. -/
def CACHE_EXPIRY_DAYS : ℚ := 30

/-- `CacheManager.delete`: remove the payload file and metadata entry of
the query's key. -/
def cacheDelete {α : Type} (q : String) (st : CacheState α) : CacheState α :=
  ⟨alErase (cacheKey q) st.files, alErase (cacheKey q) st.metadata⟩

/-- `CacheManager.get` at time `now`: absent file is a miss; an entry
whose `cached_at` lies more than the TTL in the past is deleted and
reported as a miss; an unreadable payload is a miss; otherwise the
decoded payload is returned.  Returns the result and the new state. -/
def cacheGet {α : Type} (now : ℚ) (q : String) (st : CacheState α) :
    Option α × CacheState α :=
  match List.lookup (cacheKey q) st.files with
  | none => (none, st)
  | some file =>
    let expired : Bool :=
      match List.lookup (cacheKey q) st.metadata with
      | some m =>
        match m.cachedAt with
        | some t => decide (t + CACHE_EXPIRY_DAYS < now)
        | none => false
      | none => false
    if expired then (none, cacheDelete q st)
    else
      match file with
      | .ok payload => (some payload, st)
      | .corrupt => (none, st)

/-- `CacheManager.set` at time `now`: write the payload file and record
`cached_at = now` in the metadata (the successful-write path; a failed
write leaves the state unchanged and is out of the claims' scope). -/
def cacheSet {α : Type} (now : ℚ) (q : String) (payload : α)
    (st : CacheState α) : CacheState α :=
  ⟨alSet (cacheKey q) (.ok payload) st.files,
   alSet (cacheKey q) ⟨q, some now⟩ st.metadata⟩

/-! ## Semantic Scholar candidate selection
(`paper_agent/searcher.py`, `SemanticScholarSearcher.search`, lines 79–93)

The network part is abstracted away: the model takes the list of
candidate titles the API returned and performs the source's selection.
`CrossRefSearcher.search` and `GoogleScholarSearcher.search` share this
exact selection shape. -/

/-- The `best_match`/`best_score` accumulation loop: strict improvement
keeps the first title attaining the maximum; the score starts at `0.0`
with no match. -/
def ssBestFold (q : String) (papers : List String) : Option String × ℚ :=
  papers.foldl
    (fun acc t => if acc.2 < similarity_score q t then (some t, similarity_score q t) else acc)
    (none, 0)

/-- `SemanticScholarSearcher.search` after the API call: no papers is a
miss, a best score below `0.3` is a miss, otherwise the best title wins. -/
def ssSearch (q : String) (papers : List String) : Option String :=
  if papers = [] then none
  else if (ssBestFold q papers).2 < 3/10 then none
  else (ssBestFold q papers).1

/-- The maximum similarity score over a source's candidate titles. -/
def maxScore (q : String) (papers : List String) : ℚ :=
  papers.foldl (fun m t => max m (similarity_score q t)) 0

/-! ## DBLP candidate selection
(`paper_agent/searcher.py`, `DBLPSearcher.search`, lines 199–325) -/

/-- `title_words - query_words` over raw (unnormalized) strings, as the
DBLP client computes it. -/
def wordDelta (q t : String) : ℤ := ((pyWords t).length : ℤ) - (pyWords q).length

/-- The DBLP client's adjusted score: the base similarity score with the
length-mismatch penalty (`×0.7` beyond 3 words, `×0.9` beyond 1 word)
and the close-length bonus (`×1.1` capped at 1 when within ±1 word and
above 0.5). -/
def dblpAdjScore (q t : String) : ℚ :=
  let base := similarity_score q t
  let s1 :=
    if 3 < wordDelta q t then base * (7/10)
    else if 1 < wordDelta q t then base * (9/10)
    else base
  if (wordDelta q t).natAbs ≤ 1 ∧ 5/10 < s1 then min 1 (s1 * (11/10)) else s1

/-- One DBLP match candidate: title, adjusted score, word delta (the
`info` payload is identified with the title). -/
structure DblpCand where
  title : String
  score : ℚ
  wordDiff : ℤ
deriving DecidableEq

/-- The DBLP candidate list: one entry per hit, in hit order, keeping
only positive adjusted scores. -/
def dblpCandidates (q : String) (hits : List String) : List DblpCand :=
  (hits.map (fun t => ⟨t, dblpAdjScore q t, wordDelta q t⟩)).filter
    (fun c => decide (0 < c.score))

/-- Stable descending insertion by score: the new element goes after all
existing elements with an equal or higher score. -/
def insertDesc (x : DblpCand) : List DblpCand → List DblpCand
  | [] => [x]
  | y :: ys => if y.score < x.score then x :: y :: ys else y :: insertDesc x ys

/-- `candidates.sort(key=score, reverse=True)`: Python's stable sort,
descending by score with ties in original order. -/
def sortDesc (l : List DblpCand) : List DblpCand :=
  l.foldl (fun acc x => insertDesc x acc) []

/-- The coverage ratio used by the DBLP tie-break: shared distinct words
over distinct query words (0 for an empty query word set). -/
def dblpCoverage (q t : String) : ℚ :=
  let qs := (pyWords (pyLower q)).toFinset
  let cs := (pyWords (pyLower t)).toFinset
  if 0 < qs.card then ((qs ∩ cs).card : ℚ) / qs.card else 0

/-- The tie-break scan over the top three sorted candidates: a candidate
within 0.05 of the current best, with smaller word delta and full query
coverage, is promoted. -/
def dblpScan (q : String) : List DblpCand → Option DblpCand
  | [] => none
  | c0 :: rest =>
    some ((rest.take 2).foldl
      (fun best cand =>
        if best.score - cand.score < 5/100 ∧ cand.wordDiff < best.wordDiff ∧
            1 ≤ dblpCoverage q cand.title then cand
        else best)
      c0)

/-- The candidate the DBLP client settles on before the threshold test. -/
def dblpBest (q : String) (hits : List String) : Option DblpCand :=
  dblpScan q (sortDesc (dblpCandidates q hits))

/-- `DBLPSearcher.search` after the API call: the scanned best wins if
its adjusted score reaches `0.3` (no candidates is a miss). -/
def dblpSearch (q : String) (hits : List String) : Option String :=
  (dblpBest q hits).bind
    (fun best => if best.score < 3/10 then none else some best.title)

/-- The maximum adjusted score over the DBLP hits. -/
def dblpMaxScore (q : String) (hits : List String) : ℚ :=
  hits.foldl (fun m t => max m (dblpAdjScore q t)) 0

/-! Spec-side formulations of the DBLP refinement, from the claim's
wording. -/

/-- Claim wording: multiply by 0.7 when the word-delta exceeds 3 and by
0.9 when the word-delta is in (1,3]. -/
def specPenalty (wd : ℤ) : ℚ :=
  if 3 < wd then 7/10 else if 1 < wd ∧ wd ≤ 3 then 9/10 else 1

/-- Claim wording for the adjusted score: penalized base score, then the
1.1 bonus capped at 1.0 when the word-delta is within ±1 and the score
exceeds 0.5. -/
def specAdjScore (q t : String) : ℚ :=
  let s := similarity_score q t * specPenalty (wordDelta q t)
  if (wordDelta q t).natAbs ≤ 1 ∧ 5/10 < s then min 1 (s * (11/10)) else s

/-- Claim wording for the tie-break promotion: score within 0.05 of the
current best, smaller word-delta, and the title's word-set contains
every query word. -/
def claimPromotes (q : String) (best cand : DblpCand) : Prop :=
  best.score - cand.score < 5/100 ∧ cand.wordDiff < best.wordDiff ∧
    (pyWords (pyLower q)).toFinset ⊆ (pyWords (pyLower cand.title)).toFinset

instance (q : String) (best cand : DblpCand) : Decidable (claimPromotes q best cand) := by
  unfold claimPromotes; infer_instance

/-- The tie-break scan with the claim's promotion condition. -/
def claimScan (q : String) : List DblpCand → Option DblpCand
  | [] => none
  | c0 :: rest =>
    some ((rest.take 2).foldl
      (fun best cand => if claimPromotes q best cand then cand else best) c0)

/-- The full claim-side selection pipeline (spec adjusted scores, the
shared stable descending sort, the claim's scan). -/
def claimDblpBest (q : String) (hits : List String) : Option DblpCand :=
  claimScan q (sortDesc ((hits.map (fun t => ⟨t, specAdjScore q t, wordDelta q t⟩)).filter
    (fun c => decide (0 < c.score))))

/-- The amended promotion condition: the code additionally requires the
query word-set to be non-empty. -/
def amendedPromotes (q : String) (best cand : DblpCand) : Prop :=
  best.score - cand.score < 5/100 ∧ cand.wordDiff < best.wordDiff ∧
    0 < (pyWords (pyLower q)).toFinset.card ∧
    (pyWords (pyLower q)).toFinset ⊆ (pyWords (pyLower cand.title)).toFinset

instance (q : String) (best cand : DblpCand) : Decidable (amendedPromotes q best cand) := by
  unfold amendedPromotes; infer_instance

/-- The tie-break scan with the amended promotion condition. -/
def amendedScan (q : String) : List DblpCand → Option DblpCand
  | [] => none
  | c0 :: rest =>
    some ((rest.take 2).foldl
      (fun best cand => if amendedPromotes q best cand then cand else best) c0)

/-- The amended claim-side selection pipeline. -/
def amendedDblpBest (q : String) (hits : List String) : Option DblpCand :=
  amendedScan q (sortDesc ((hits.map (fun t => ⟨t, specAdjScore q t, wordDelta q t⟩)).filter
    (fun c => decide (0 < c.score))))

/-! ## The orchestrator's page-supplement cascade
(`paper_agent/searcher.py`, `PaperAgent.search` lines 536–574 and
`PaperAgent._supplement_pages` lines 582–730)

The result dictionary is modelled by `Record` (absent keys and
empty-string values both become `none`); every network-dependent
extractor call is an oracle field of `Extractors`, returning `none` both
for "nothing found" and for a raised-and-caught exception. -/

/-- The mutable result dictionary of a resolution, restricted to the
fields the cascade reads or writes. -/
structure Record where
  title : String
  pages : Option String
  pagesSource : Option String
  url : Option String
  dblpUrl : Option String
  pdfUrl : Option String
  doi : Option String
  bibtex : Option String
deriving DecidableEq

/-- Oracles for the cascade's effectful calls. -/
structure Extractors where
  doi2bib : String → Option String
  neurips : String → String → Option String
  dblpExtract : String → String → Option String
  pmlr : String → String → Option (Option String × Option String)
  headRedirect : String → Option String
  llmDoi : String → String → Option String
  llmUrl : String → String → Option String

/-- The protected-domain test: `any(domain in url.lower() for domain in
['dl.acm.org', 'aclanthology.org', 'ieee.org'])`. -/
def isProtected (u : String) : Bool :=
  strContains "dl.acm.org" (pyLower u) || strContains "aclanthology.org" (pyLower u) ||
    strContains "ieee.org" (pyLower u)

/-- `redirected_url.split('/')[2] if '/' in redirected_url else ''`. -/
def splitCharAux (sep : Char) : List Char → List Char → List String
  | [], acc => [⟨acc.reverse⟩]
  | c :: cs, acc =>
    if c = sep then (⟨acc.reverse⟩ : String) :: splitCharAux sep cs []
    else splitCharAux sep cs (c :: acc)

/-- Python `s.split(sep)` for a single-character separator. -/
def pySplitChar (sep : Char) (s : String) : List String := splitCharAux sep s.data []

/-- The domain component of a URL as the cascade computes it. -/
def urlDomain (u : String) : String :=
  if strContains "/" u then (pySplitChar '/' u).getD 2 "" else ""

/-- `re.search(r'doi\.org/([^/]+/?.*)', url)`: the suffix after the
leftmost `doi.org/` that is followed by at least one non-slash
character. -/
def doiSuffix : List Char → Option (List Char)
  | [] => none
  | c :: t =>
    if "doi.org/".data.isPrefixOf (c :: t) then
      let rest := (c :: t).drop 8
      if rest ≠ [] ∧ rest.headD ' ' ≠ '/' then some rest else doiSuffix t
    else doiSuffix t

/-- The DOI identifier extracted from a URL, with `rstrip('/')`. -/
def doiFromUrl (u : String) : Option String :=
  (doiSuffix u.data).map (fun rest => ⟨((rest.reverse.dropWhile (fun c => c = '/')).reverse)⟩)

/-- The tail of `_supplement_pages` (`if not result.get('pages') and
url:` onward): protected-domain short-circuit, the `doi.org` branch
(doi2bib, then redirect-checked LLM extraction), then the generic LLM
fallback. -/
def supplementTail (ex : Extractors) (url : Option String) (r : Record) : Record :=
  match r.pages, url with
  | none, some u =>
    if isProtected u then r
    else
      let isDoiUrl := strContains "doi.org" (pyLower u) ||
        "https://doi.org/".isPrefixOf u || "http://doi.org/".isPrefixOf u
      let afterDoi2bib : Option Record :=
        if isDoiUrl then
          match doiFromUrl u with
          | some ident =>
            match ex.doi2bib ident with
            | some p => some { r with pages := some p, pagesSource := some "doi2bib" }
            | none => none
          | none => none
        else none
      match afterDoi2bib with
      | some r2 => r2
      | none =>
        let afterLlmDoi : Option Record :=
          if isDoiUrl then
            match ex.headRedirect u with
            | some redirected =>
              if isProtected (urlDomain redirected) then some r
              else
                match ex.llmDoi u r.title with
                | some p => some { r with pages := some p, pagesSource := some "llm_doi_extraction" }
                | none => none
            | none => none
          else none
        match afterLlmDoi with
        | some r2 => r2
        | none =>
          if isProtected u then r
          else
            match ex.llmUrl u r.title with
            | some p => { r with pages := some p, pagesSource := some "llm_extraction" }
            | none => r
  | _, _ => r

/-- The PMLR fill-in step: pages only when still absent, BibTeX only
when still absent. -/
def pmlrApply (res : Option (Option String × Option String)) (r : Record) : Record :=
  match res with
  | none => r
  | some (pOpt, bOpt) =>
    let r1 :=
      match pOpt, r.pages with
      | some p, none => { r with pages := some p, pagesSource := some "pmlr" }
      | _, _ => r
    match bOpt, r1.bibtex with
    | some b, none => { r1 with bibtex := some b }
    | _, _ => r1

/-- `PaperAgent._supplement_pages`: NeurIPS extraction (early return),
DBLP extraction (early return), PMLR fill-in, then the guarded tail. -/
def supplement_pages (ex : Extractors) (engines : List String) (r : Record) : Record :=
  let url := r.url <|> r.dblpUrl <|> r.pdfUrl
  let neuripsResult : Option String :=
    match url with
    | some u =>
      if strContains "neurips.cc" (pyLower u) || strContains "nips.cc" (pyLower u) then
        ex.neurips u r.title
      else none
    | none => none
  match neuripsResult with
  | some p => { r with pages := some p, pagesSource := some "neurips_bibtex" }
  | none =>
    let dblpUrl := r.dblpUrl <|> r.url
    let dblpResult : Option String :=
      match dblpUrl with
      | some du =>
        if strContains "dblp.org" du || "dblp" ∈ engines then ex.dblpExtract du r.title
        else none
      | none => none
    match dblpResult with
    | some p => { r with pages := some p, pagesSource := some "web_extraction" }
    | none =>
      let r1 :=
        match url with
        | some u =>
          if strContains "proceedings.mlr.press" (pyLower u) then pmlrApply (ex.pmlr u r.title) r
          else r
        | none => r
      supplementTail ex url r1

/-- The tail of `PaperAgent.search` once a source produced a record: the
DOI-based page lookup (only when pages are absent), then the supplement
cascade (only when pages are still absent).  Cache write-back is outside
this model. -/
def search_postprocess (ex : Extractors) (engines : List String) (r : Record) : Record :=
  let r1 :=
    match r.doi with
    | some d =>
      if r.pages = none then
        match ex.doi2bib d with
        | some p => { r with pages := some p, pagesSource := some "doi2bib" }
        | none => r
      else r
    | none => r
  if r1.pages = none then supplement_pages ex engines r1 else r1

/-! ## Theorems -/

/-- Claim C1: for every input string, `normalize_pages` strips a leading
pages label, extracts the maximal digit runs of what remains, and
returns `first-second` when at least two runs exist, the single run
unmodified when exactly one exists, and `none` when none exist; in
particular `"130136--130184"` normalizes to `"130136-130184"`. -/
theorem normalize_pages_spec :
    (∀ s : String,
      normalize_pages s =
        match digitRuns (stripPagesLabel s) with
        | [] => none
        | [a] => some a
        | a :: b :: _ => some (a ++ "-" ++ b)) ∧
    normalize_pages "130136--130184" = some "130136-130184" := by
  constructor
  · intro s
    by_cases h : s = ""
    · subst h; rfl
    · unfold normalize_pages
      rw [if_neg h]
      rcases e : digitRuns (stripPagesLabel s) with _ | ⟨a, _ | ⟨b, rest⟩⟩ <;> rfl
  · decide

/-- Claim C2: after lower-casing and trimming both inputs,
`similarity_score` returns exactly 1 on equality, and on a literal
substring match returns the containment tier determined by the
word-count delta and the character-length ratio (`containsTier`
renders the tiers 0.98 / 0.95 / 0.85 / 0.75 / 0.60 as rationals).
The BERT scenario is the witness. -/
theorem similarity_score_top_branches :
    ∀ s1 s2 : String,
      (pyStrip (pyLower s1) = pyStrip (pyLower s2) → similarity_score s1 s2 = 1) ∧
      (pyStrip (pyLower s1) ≠ pyStrip (pyLower s2) →
        strContains (pyStrip (pyLower s1)) (pyStrip (pyLower s2)) = true →
        similarity_score s1 s2 =
          containsTier
            (((pyWords (pyStrip (pyLower s2))).length : ℤ) -
              (pyWords (pyStrip (pyLower s1))).length)
            (if 0 < (pyStrip (pyLower s2)).length then
              ((pyStrip (pyLower s1)).length : ℚ) / (pyStrip (pyLower s2)).length
            else 0)) := by
  intro s1 s2
  constructor
  · intro h
    unfold similarity_score
    rw [if_pos h]
  · intro h1 h2
    unfold similarity_score
    rw [if_neg h1, if_pos h2]

/-- Witness for C2: the query `"BERT"` against the full BERT paper title
is a containment match with word delta 8, scoring the `0.60` tier. -/
theorem similarity_score_top_branches_witness :
    similarity_score "BERT"
      "BERT: Pre-training of Deep Bidirectional Transformers for Language Understanding" =
      6/10 := by
  have h :=
    (similarity_score_top_branches "BERT"
      "BERT: Pre-training of Deep Bidirectional Transformers for Language Understanding").2
    (by decide) (by decide)
  rw [h]
  with_unfolding_all decide

/-- Counterexample to claim C3: on `"alpha beta"` vs `"beta gamma"`
exactly one word is shared, so the claim's order-bonus (same relative
order, vacuously true for a single shared word) is 0.3 and the claimed
formula yields `103/200 = 0.515`, while the code's order sub-score is 0
(its `len(words1_list) > 1` guard fails) and `similarity_score` yields
`1/2`. -/
theorem similarity_wordset_counterexample :
    similarity_score "alpha beta" "beta gamma" ≠
      claimWordSetFormula "alpha beta" "beta gamma" := by
  with_unfolding_all decide

/-- Claim C3 (amended): in the word-set branch the score is
`0.5·coverage + 0.3·Jaccard + 0.15·length-similarity + 0.05·order-bonus`
with the coverage-≥-1 result multiplied by 1.1 and capped at 1, where
the order-bonus is 0.3 for shared words in the same relative order and
0.1 otherwise — but only when the query contributes at least two shared
word occurrences; with at most one shared word occurrence the
order-bonus is 0. -/
theorem similarity_wordset_formula :
    ∀ s1 s2 : String,
      pyStrip (pyLower s1) ≠ pyStrip (pyLower s2) →
      strContains (pyStrip (pyLower s1)) (pyStrip (pyLower s2)) = false →
      pyWords (pyStrip (pyLower s1)) ≠ [] →
      pyWords (pyStrip (pyLower s2)) ≠ [] →
      similarity_score s1 s2 = amendedWordSetFormula s1 s2 := by
  intro s1 s2 h1 h2 h3 h4
  unfold similarity_score
  rw [if_neg h1, if_neg (by simp [h2]), if_neg (by simp [h3, h4])]
  rfl

/-- Witness for the amended C3 at a concrete word-set-branch input. -/
theorem similarity_wordset_formula_witness :
    similarity_score "alpha beta" "beta gamma" =
      amendedWordSetFormula "alpha beta" "beta gamma" :=
  similarity_wordset_formula "alpha beta" "beta gamma"
    (by decide) (by decide) (by decide) (by decide)

lemma containsTier_bounds (wd : ℤ) (r : ℚ) :
    0 ≤ containsTier wd r ∧ containsTier wd r ≤ 1 := by
  unfold containsTier
  split_ifs <;> norm_num

lemma orderScore_bounds (w1 w2 : List String) :
    0 ≤ orderScore w1 w2 ∧ orderScore w1 w2 ≤ 3/10 := by
  simp only [orderScore]
  split_ifs <;> norm_num

lemma combo_bounds (C J L O : ℚ) (hC0 : 0 ≤ C) (hC1 : C ≤ 1) (hJ0 : 0 ≤ J)
    (hJ1 : J ≤ 1) (hL0 : 0 ≤ L) (hL1 : L ≤ 1) (hO0 : 0 ≤ O) (hO1 : O ≤ 3/10) :
    0 ≤ (if 1 ≤ C then
        min 1 ((C * (5/10) + J * (3/10) + L * (15/100) + O * (5/100)) * (11/10))
      else C * (5/10) + J * (3/10) + L * (15/100) + O * (5/100)) ∧
    (if 1 ≤ C then
        min 1 ((C * (5/10) + J * (3/10) + L * (15/100) + O * (5/100)) * (11/10))
      else C * (5/10) + J * (3/10) + L * (15/100) + O * (5/100)) ≤ 1 := by
  have hF0 : 0 ≤ C * (5/10) + J * (3/10) + L * (15/100) + O * (5/100) := by
    have := mul_nonneg hC0 (by norm_num : (0:ℚ) ≤ 5/10)
    have := mul_nonneg hJ0 (by norm_num : (0:ℚ) ≤ 3/10)
    have := mul_nonneg hL0 (by norm_num : (0:ℚ) ≤ 15/100)
    have := mul_nonneg hO0 (by norm_num : (0:ℚ) ≤ 5/100)
    linarith
  have hF1 : C * (5/10) + J * (3/10) + L * (15/100) + O * (5/100) ≤ 1 := by
    have h1 : C * (5/10) ≤ 1 * (5/10) :=
      mul_le_mul_of_nonneg_right hC1 (by norm_num)
    have h2 : J * (3/10) ≤ 1 * (3/10) :=
      mul_le_mul_of_nonneg_right hJ1 (by norm_num)
    have h3 : L * (15/100) ≤ 1 * (15/100) :=
      mul_le_mul_of_nonneg_right hL1 (by norm_num)
    have h4 : O * (5/100) ≤ (3/10) * (5/100) :=
      mul_le_mul_of_nonneg_right hO1 (by norm_num)
    linarith
  split_ifs
  · exact ⟨le_min (by norm_num) (mul_nonneg hF0 (by norm_num)), min_le_left _ _⟩
  · exact ⟨hF0, hF1⟩

lemma natRatio_bounds (a b : ℕ) (hab : a ≤ b) :
    0 ≤ (if 0 < b then (a : ℚ) / b else 0) ∧ (if 0 < b then (a : ℚ) / b else 0) ≤ 1 := by
  split_ifs with h
  · refine ⟨by positivity, ?_⟩
    rw [div_le_one (by exact_mod_cast h)]
    exact_mod_cast hab
  · norm_num

lemma lengthScore_bounds (a b : ℕ) :
    0 ≤ (if 0 < max a b then
        1 - ((((a : ℤ) - b).natAbs : ℚ) / (max a b : ℕ)) else 0) ∧
    (if 0 < max a b then
        1 - ((((a : ℤ) - b).natAbs : ℚ) / (max a b : ℕ)) else 0) ≤ 1 := by
  split_ifs with h
  · have habs : ((a : ℤ) - b).natAbs ≤ max a b := by omega
    have h0 : (0 : ℚ) < ((max a b : ℕ) : ℚ) := by exact_mod_cast h
    have hd1 : ((((a : ℤ) - b).natAbs : ℚ) / ((max a b : ℕ) : ℚ)) ≤ 1 := by
      rw [div_le_one h0]; exact_mod_cast habs
    have hd0 : 0 ≤ ((((a : ℤ) - b).natAbs : ℚ) / ((max a b : ℕ) : ℚ)) := by positivity
    constructor <;> linarith
  · norm_num

/-- Claim C10: `similarity_score` always lies in the closed interval
`[0, 1]`: the exact-match and containment branches return constants in
range, and the weighted word-set combination (with its 1.1 bonus capped
at 1) is bounded by its component bounds. -/
theorem similarity_score_mem_unit_interval :
    ∀ s1 s2 : String, 0 ≤ similarity_score s1 s2 ∧ similarity_score s1 s2 ≤ 1 := by
  intro s1 s2
  simp only [similarity_score]
  by_cases c1 : pyStrip (pyLower s1) = pyStrip (pyLower s2)
  · rw [if_pos c1]; norm_num
  rw [if_neg c1]
  by_cases c2 : strContains (pyStrip (pyLower s1)) (pyStrip (pyLower s2)) = true
  · rw [if_pos c2]; exact containsTier_bounds _ _
  rw [if_neg c2]
  by_cases c3 : pyWords (pyStrip (pyLower s1)) = [] ∨ pyWords (pyStrip (pyLower s2)) = []
  · rw [if_pos c3]; norm_num
  rw [if_neg c3]
  exact combo_bounds _ _ _ _
      (natRatio_bounds _ _ (Finset.card_le_card Finset.inter_subset_left)).1
      (natRatio_bounds _ _ (Finset.card_le_card Finset.inter_subset_left)).2
      (natRatio_bounds _ _ (Finset.card_le_card Finset.inter_subset_union)).1
      (natRatio_bounds _ _ (Finset.card_le_card Finset.inter_subset_union)).2
      (lengthScore_bounds _ _).1 (lengthScore_bounds _ _).2
      (orderScore_bounds _ _).1 (orderScore_bounds _ _).2

lemma foldl_max_init_le (f : String → ℚ) :
    ∀ (l : List String) (a : ℚ), a ≤ l.foldl (fun m t => max m (f t)) a
  | [], _ => le_refl _
  | t :: ts, a => le_trans (le_max_left a (f t)) (foldl_max_init_le f ts (max a (f t)))

lemma foldl_max_mem_le (f : String → ℚ) (l : List String) :
    ∀ (a : ℚ) (t : String), t ∈ l → f t ≤ l.foldl (fun m t => max m (f t)) a := by
  induction l with
  | nil => intro a t ht; cases ht
  | cons x xs ih =>
    intro a t ht
    simp only [List.foldl_cons]
    rcases List.mem_cons.1 ht with h | h
    · subst h
      exact le_trans (le_max_right a (f t)) (foldl_max_init_le f xs _)
    · exact ih _ t h

lemma ssBestFold_snd_eq (q : String) (papers : List String) :
    (ssBestFold q papers).2 = maxScore q papers := by
  unfold ssBestFold maxScore
  suffices h : ∀ (l : List String) (o : Option String) (m : ℚ),
      (l.foldl (fun acc t =>
        if acc.2 < similarity_score q t then (some t, similarity_score q t) else acc) (o, m)).2 =
      l.foldl (fun m t => max m (similarity_score q t)) m by
    exact h papers none 0
  intro l
  induction l with
  | nil => intro o m; rfl
  | cons t ts ih =>
    intro o m
    simp only [List.foldl_cons]
    by_cases h : m < similarity_score q t
    · rw [if_pos h, ih, max_eq_right h.le]
    · rw [if_neg h, ih, max_eq_left (not_lt.1 h)]

lemma mem_insertDesc (x y : DblpCand) :
    ∀ l : List DblpCand, x ∈ insertDesc y l → x = y ∨ x ∈ l := by
  intro l
  induction l with
  | nil => intro h; simpa [insertDesc] using h
  | cons z zs ih =>
    simp only [insertDesc]
    split_ifs with h
    · intro hx
      rcases List.mem_cons.1 hx with h1 | h2
      · exact Or.inl h1
      · exact Or.inr h2
    · intro hx
      rcases List.mem_cons.1 hx with h1 | h2
      · exact Or.inr (h1 ▸ List.mem_cons_self z zs)
      · rcases ih h2 with h3 | h3
        · exact Or.inl h3
        · exact Or.inr (List.mem_cons_of_mem z h3)

lemma mem_sortDesc (x : DblpCand) (l : List DblpCand) :
    x ∈ sortDesc l → x ∈ l := by
  unfold sortDesc
  suffices h : ∀ (l : List DblpCand) (acc : List DblpCand),
      x ∈ l.foldl (fun a c => insertDesc c a) acc → x ∈ acc ∨ x ∈ l by
    intro hx
    rcases h l [] hx with h1 | h1
    · cases h1
    · exact h1
  intro l
  induction l with
  | nil => intro acc h; exact Or.inl h
  | cons c cs ih =>
    intro acc h
    simp only [List.foldl_cons] at h
    rcases ih (insertDesc c acc) h with h1 | h1
    · rcases mem_insertDesc x c acc h1 with h2 | h2
      · exact Or.inr (h2 ▸ List.mem_cons_self c cs)
      · exact Or.inl h2
    · exact Or.inr (List.mem_cons_of_mem c h1)

lemma foldl_ite_mem (P : DblpCand → DblpCand → Prop) [∀ a b, Decidable (P a b)] :
    ∀ (l : List DblpCand) (c : DblpCand),
      l.foldl (fun best cand => if P best cand then cand else best) c ∈ c :: l := by
  intro l
  induction l with
  | nil => intro c; simp
  | cons x xs ih =>
    intro c
    simp only [List.foldl_cons]
    by_cases h : P c x
    · rw [if_pos h]
      rcases List.mem_cons.1 (ih x) with h1 | h1
      · rw [h1]
        exact List.mem_cons_of_mem c (List.mem_cons_self x xs)
      · exact List.mem_cons_of_mem c (List.mem_cons_of_mem x h1)
    · rw [if_neg h]
      rcases List.mem_cons.1 (ih c) with h1 | h1
      · rw [h1]
        exact List.mem_cons_self c (x :: xs)
      · exact List.mem_cons_of_mem c (List.mem_cons_of_mem x h1)

lemma dblpScan_mem (q : String) (l : List DblpCand) (b : DblpCand) :
    dblpScan q l = some b → b ∈ l := by
  cases l with
  | nil => intro h; cases h
  | cons c0 rest =>
    intro h
    simp only [dblpScan, Option.some.injEq] at h
    subst h
    have hmem := foldl_ite_mem
      (fun best cand => best.score - cand.score < 5/100 ∧ cand.wordDiff < best.wordDiff ∧
        1 ≤ dblpCoverage q cand.title)
      (rest.take 2) c0
    rcases List.mem_cons.1 hmem with h1 | h1
    · rw [h1]
      exact List.mem_cons_self c0 rest
    · exact List.mem_cons_of_mem c0 (List.take_subset 2 rest h1)

lemma dblpCandidates_score_le (q : String) (hits : List String) (c : DblpCand) :
    c ∈ dblpCandidates q hits → c.score ≤ dblpMaxScore q hits := by
  intro hc
  unfold dblpCandidates at hc
  rcases List.mem_filter.1 hc with ⟨hmem, _⟩
  rcases List.mem_map.1 hmem with ⟨t, ht, rfl⟩
  exact foldl_max_mem_le (dblpAdjScore q) hits 0 t ht

lemma dblpBest_score_le (q : String) (hits : List String) (b : DblpCand) :
    dblpBest q hits = some b → b.score ≤ dblpMaxScore q hits := by
  intro h
  exact dblpCandidates_score_le q hits b
    (mem_sortDesc b _ (dblpScan_mem q _ b h))

/-- Claim C4: a source client returns a record only when the maximum
final score over its candidates reaches 0.3, and reports absence when
the maximum is below 0.3 — for the Semantic Scholar selection (shared
verbatim by the CrossRef and Google Scholar clients) and for the DBLP
selection over its adjusted scores. -/
theorem threshold_law :
    ∀ (q : String) (papers hits : List String),
      ((maxScore q papers < 3/10 → ssSearch q papers = none) ∧
        (∀ r, ssSearch q papers = some r → 3/10 ≤ maxScore q papers)) ∧
      ((dblpMaxScore q hits < 3/10 → dblpSearch q hits = none) ∧
        (∀ r, dblpSearch q hits = some r → 3/10 ≤ dblpMaxScore q hits)) := by
  intro q papers hits
  refine ⟨⟨?_, ?_⟩, ?_, ?_⟩
  · intro hmax
    unfold ssSearch
    split_ifs with h1 h2
    · rfl
    · rfl
    · exact absurd (by rw [ssBestFold_snd_eq]; exact hmax) h2
  · intro r hr
    unfold ssSearch at hr
    rw [ssBestFold_snd_eq] at hr
    by_cases h1 : papers = []
    · rw [if_pos h1] at hr; cases hr
    · rw [if_neg h1] at hr
      by_cases h2 : maxScore q papers < 3/10
      · rw [if_pos h2] at hr; cases hr
      · exact not_lt.1 h2
  · intro hmax
    unfold dblpSearch
    rcases e : dblpBest q hits with _ | b
    · rfl
    · simp only [Option.some_bind]
      rw [if_pos (lt_of_le_of_lt (dblpBest_score_le q hits b e) hmax)]
  · intro r hr
    unfold dblpSearch at hr
    rcases e : dblpBest q hits with _ | b <;> rw [e] at hr
    · cases hr
    · simp only [Option.some_bind] at hr
      split_ifs at hr with h
      exact le_trans (not_lt.1 h) (dblpBest_score_le q hits b e)

/-- Witness for C4: the exact-match query attains maximum score 1 and is
accepted, so the maximum is at least 0.3. -/
theorem threshold_law_witness :
    3/10 ≤ maxScore "attention is all you need" ["Attention Is All You Need"] :=
  ((threshold_law "attention is all you need" ["Attention Is All You Need"] []).1.2)
    "Attention Is All You Need" (by with_unfolding_all decide)

lemma specAdjScore_eq_dblpAdjScore (q t : String) :
    specAdjScore q t = dblpAdjScore q t := by
  have hs : similarity_score q t * specPenalty (wordDelta q t) =
      (if 3 < wordDelta q t then similarity_score q t * (7/10)
       else if 1 < wordDelta q t then similarity_score q t * (9/10)
       else similarity_score q t) := by
    unfold specPenalty
    by_cases h3 : 3 < wordDelta q t
    · rw [if_pos h3, if_pos h3]
    · rw [if_neg h3, if_neg h3]
      by_cases h1 : 1 < wordDelta q t
      · rw [if_pos (⟨h1, not_lt.1 h3⟩ : _ ∧ _), if_pos h1]
      · rw [if_neg (fun hc => h1 hc.1), if_neg h1, mul_one]
  simp only [specAdjScore, dblpAdjScore]
  rw [hs]

lemma dblpCoverage_one_iff (q t : String) :
    1 ≤ dblpCoverage q t ↔
      0 < (pyWords (pyLower q)).toFinset.card ∧
        (pyWords (pyLower q)).toFinset ⊆ (pyWords (pyLower t)).toFinset := by
  unfold dblpCoverage
  by_cases h : 0 < (pyWords (pyLower q)).toFinset.card
  · rw [if_pos h]
    have hqpos : (0 : ℚ) < ((pyWords (pyLower q)).toFinset.card : ℚ) := by exact_mod_cast h
    rw [one_le_div hqpos]
    constructor
    · intro hle
      have hcard : (pyWords (pyLower q)).toFinset.card ≤
          ((pyWords (pyLower q)).toFinset ∩ (pyWords (pyLower t)).toFinset).card := by
        exact_mod_cast hle
      have heq := Finset.eq_of_subset_of_card_le Finset.inter_subset_left hcard
      exact ⟨h, Finset.inter_eq_left.1 heq⟩
    · rintro ⟨-, hsub⟩
      rw [Finset.inter_eq_left.2 hsub]
  · rw [if_neg h]
    constructor
    · intro h1; exact absurd h1 (by norm_num)
    · rintro ⟨h0, -⟩; exact absurd h0 h

lemma amendedScan_eq_dblpScan (q : String) (l : List DblpCand) :
    amendedScan q l = dblpScan q l := by
  have hstep :
      (fun (best cand : DblpCand) => if amendedPromotes q best cand then cand else best) =
      (fun (best cand : DblpCand) =>
        if best.score - cand.score < 5/100 ∧ cand.wordDiff < best.wordDiff ∧
            1 ≤ dblpCoverage q cand.title then cand
        else best) := by
    funext best cand
    refine if_congr ?_ rfl rfl
    unfold amendedPromotes
    constructor
    · rintro ⟨ha, hb, hc, hd⟩
      exact ⟨ha, hb, (dblpCoverage_one_iff q cand.title).2 ⟨hc, hd⟩⟩
    · rintro ⟨ha, hb, hc⟩
      rcases (dblpCoverage_one_iff q cand.title).1 hc with ⟨h1, h2⟩
      exact ⟨ha, hb, h1, h2⟩
  cases l with
  | nil => rfl
  | cons c0 rest =>
    simp only [amendedScan, dblpScan]
    rw [hstep]

/-- Counterexample to claim C5: on the empty query, the claim's
promotion condition "the title's word-set contains every query word" is
vacuously true, while the code's coverage ratio is defined as 0 for an
empty query word set, so no candidate is promoted.  With two hits of
equal adjusted score, the claim's pipeline promotes the shorter title
while the code keeps the first. -/
theorem dblp_tiebreak_counterexample :
    dblpBest "" ["a b c d e f", "a b c d e"] ≠
      claimDblpBest "" ["a b c d e f", "a b c d e"] := by
  with_unfolding_all decide

/-- Claim C5 (amended): the DBLP client scores each hit with the base
similarity score, multiplies by 0.7 when the word-delta exceeds 3 and by
0.9 when it is in (1,3], applies the 1.1 bonus capped at 1 when the
word-delta is within ±1 and the score exceeds 0.5, keeps positive
scores, sorts stably by adjusted score descending, and scanning the top
three candidates promotes a lower-ranked candidate exactly when its
score is strictly within 0.05 of the current best, its word-delta is
smaller, and its title's word-set contains every word of the non-empty
query word-set (for an empty query no candidate is promoted). -/
theorem dblp_refinement_pipeline :
    ∀ (q : String) (hits : List String), dblpBest q hits = amendedDblpBest q hits := by
  intro q hits
  unfold dblpBest amendedDblpBest dblpCandidates
  have hfun : (fun t => (⟨t, specAdjScore q t, wordDelta q t⟩ : DblpCand)) =
      (fun t => (⟨t, dblpAdjScore q t, wordDelta q t⟩ : DblpCand)) := by
    funext t
    rw [specAdjScore_eq_dblpAdjScore]
  rw [hfun, amendedScan_eq_dblpScan]

lemma lookup_alSet_self {β : Type} (k : String) (v : β) (l : List (String × β)) :
    List.lookup k (alSet k v l) = some v := by
  simp [alSet, List.lookup]

lemma lookup_alErase_self {β : Type} (k : String) (l : List (String × β)) :
    List.lookup k (alErase k l) = none := by
  induction l with
  | nil => rfl
  | cons p t ih =>
    obtain ⟨a, b⟩ := p
    unfold alErase at ih ⊢
    rw [List.filter_cons]
    by_cases h : a = k
    · rw [if_neg (by simp [h])]
      exact ih
    · rw [if_pos (by simp [h])]
      simp only [List.lookup]
      rw [show (k == a) = false by simp [Ne.symm h]]
      exact ih

/-- Claim C6: `set` followed by `get` returns the stored record while
the entry is within the 30-day TTL, and once `now` passes
`cached_at + TTL` the lookup reports absence and removes both the
payload file and the metadata entry. -/
theorem cache_roundtrip_ttl :
    ∀ (α : Type) (st : CacheState α) (t1 t2 : ℚ) (q : String) (p : α),
      (t2 ≤ t1 + CACHE_EXPIRY_DAYS →
        (cacheGet t2 q (cacheSet t1 q p st)).1 = some p) ∧
      (t1 + CACHE_EXPIRY_DAYS < t2 →
        (cacheGet t2 q (cacheSet t1 q p st)).1 = none ∧
        List.lookup (cacheKey q) ((cacheGet t2 q (cacheSet t1 q p st)).2).files = none ∧
        List.lookup (cacheKey q) ((cacheGet t2 q (cacheSet t1 q p st)).2).metadata = none) := by
  intro α st t1 t2 q p
  have hfiles : List.lookup (cacheKey q) (cacheSet t1 q p st).files =
      some (CacheFile.ok p) := lookup_alSet_self _ _ _
  have hmeta : List.lookup (cacheKey q) (cacheSet t1 q p st).metadata =
      some ⟨q, some t1⟩ := lookup_alSet_self _ _ _
  constructor
  · intro hle
    unfold cacheGet
    simp only [hfiles, hmeta]
    rw [if_neg (by simp only [decide_eq_true_eq]; exact not_lt.2 hle)]
  · intro hlt
    unfold cacheGet
    simp only [hfiles, hmeta]
    rw [if_pos (by simp only [decide_eq_true_eq]; exact hlt)]
    exact ⟨rfl, lookup_alErase_self _ _, lookup_alErase_self _ _⟩

/-- Witness for C6 at scenario E: an entry written at day 0 under the
30-day TTL is absent and purged when looked up at day 31. -/
theorem cache_roundtrip_ttl_witness :
    (cacheGet 31 "q" (cacheSet 0 "q" "r" (⟨[], []⟩ : CacheState String))).1 = none :=
  ((cache_roundtrip_ttl String ⟨[], []⟩ 0 31 "q" "r").2
    (by with_unfolding_all decide)).1

/-- Counterexample to claim C7: the source hashes `query.lower()`
without trimming, so two queries differing only in leading whitespace
hash different byte strings and receive different MD5 cache keys. -/
theorem cacheKey_counterexample : cacheKey " a" ≠ cacheKey "a" := by
  decide

/-- Claim C7 (amended): the cache key is the deterministic MD5 hex
digest of the query normalized by lower-casing only; queries differing
only in letter case share a key, but queries differing in leading or
trailing whitespace are hashed from different strings and can receive
different keys (as `" a"` vs `"a"` do). -/
theorem cacheKey_normalization :
    (∀ q1 q2 : String, pyLower q1 = pyLower q2 → cacheKey q1 = cacheKey q2) ∧
      cacheKey " a" ≠ cacheKey "a" := by
  constructor
  · intro q1 q2 h
    unfold cacheKey
    rw [h]
  · decide

/-- Witness for the amended C7: `"A"` and `"a"` share a cache key. -/
theorem cacheKey_normalization_witness : cacheKey "A" = cacheKey "a" :=
  cacheKey_normalization.1 "A" "a" (by decide)

/-- Counterexample to claim C9: when the shared metadata file is
unreadable, `_load_metadata` yields the empty dictionary, so a
subsequent `get` skips the TTL check and serves the still-readable
payload — a hit, not the miss the claim requires. -/
theorem cache_metadata_corruption_counterexample :
    (cacheGet 0 "q"
      (⟨[(cacheKey "q", CacheFile.ok "r")], loadMetadata MetaFile.corrupt⟩ :
        CacheState String)).1 = some "r" := by
  decide

/-- Claim C9 (amended): an unreadable payload file makes `get` report a
miss without raising; an unreadable metadata file is replaced by the
empty dictionary at load time, after which `get` (without raising)
serves a readable payload rather than reporting a miss. -/
theorem cache_corruption_behavior :
    ∀ (α : Type) (st : CacheState α) (now : ℚ) (q : String),
      (List.lookup (cacheKey q) st.files = some CacheFile.corrupt →
        (cacheGet now q st).1 = none) ∧
      loadMetadata MetaFile.corrupt = [] ∧
      (∀ p : α, List.lookup (cacheKey q) st.files = some (CacheFile.ok p) →
        st.metadata = [] → (cacheGet now q st).1 = some p) := by
  intro α st now q
  refine ⟨?_, rfl, ?_⟩
  · intro h
    unfold cacheGet
    simp only [h]
    split_ifs <;> rfl
  · intro p h hmeta
    unfold cacheGet
    simp only [h, hmeta]
    rfl

/-- Witness for the amended C9: a corrupt payload entry is reported as
a miss. -/
theorem cache_corruption_behavior_witness :
    (cacheGet 0 "w"
      (⟨[(cacheKey "w", CacheFile.corrupt)], []⟩ : CacheState String)).1 = none :=
  (cache_corruption_behavior String ⟨[(cacheKey "w", CacheFile.corrupt)], []⟩ 0 "w").1
    (by decide)

/-- A record that already carries pages and a NeurIPS URL. -/
def filledRecord : Record :=
  ⟨"t", some "1-10", none, some "https://neurips.cc/p", none, none, none, none⟩

/-- Oracles whose NeurIPS extractor finds pages `99-100`. -/
def neuripsOracle : Extractors :=
  ⟨fun _ => none, fun _ _ => some "99-100", fun _ _ => none, fun _ _ => none,
    fun _ => none, fun _ _ => none, fun _ _ => none⟩

/-- Counterexample to claim C8: the NeurIPS step of
`_supplement_pages` writes the pages field without checking whether it
is already set, so the chain applied directly to a record whose pages
are `1-10` overwrites them with the extractor's `99-100`. -/
theorem supplement_pages_overwrite_counterexample :
    (supplement_pages neuripsOracle [] filledRecord).pages = some "99-100" ∧
      filledRecord.pages = some "1-10" := by
  constructor <;> rfl

/-- Claim C8 (amended): `PaperAgent.search` invokes the DOI-based
extraction and the supplement cascade only when pages are absent (a
record with pages set passes through unchanged); within the cascade the
PMLR step and the whole guarded tail (protected-domain, doi2bib, LLM
steps) never touch a pages value that is already set — but the NeurIPS
and DBLP steps, if run directly on a record with pages already set, can
overwrite it, so the fill-only property holds for a single resolution
driven by `search`, not for the chain in isolation. -/
theorem pages_fill_only :
    ∀ (ex : Extractors) (engines : List String) (r : Record) (p : String),
      r.pages = some p →
      search_postprocess ex engines r = r ∧
      supplementTail ex (r.url <|> r.dblpUrl <|> r.pdfUrl) r = r ∧
      (∀ res, (pmlrApply res r).pages = some p) := by
  intro ex engines r p h
  refine ⟨?_, ?_, ?_⟩
  · unfold search_postprocess
    cases hdoi : r.doi <;> simp [h]
  · unfold supplementTail
    rw [h]
  · intro res
    unfold pmlrApply
    cases res with
    | none => exact h
    | some pb =>
      obtain ⟨pOpt, bOpt⟩ := pb
      cases pOpt <;> cases hbib : r.bibtex <;> cases bOpt <;> simp [h, hbib]

/-- Witness for the amended C8: the search post-processing leaves a
record with pages already set untouched, even with an eager NeurIPS
oracle. -/
theorem pages_fill_only_witness :
    search_postprocess neuripsOracle [] filledRecord = filledRecord :=
  (pages_fill_only neuripsOracle [] filledRecord "1-10" rfl).1

end PaperAgent
